import Mathlib

/-!
Verification of the forced-subtitle auto-flagging script
(`forced-sub_auto-flagging_mkv_Script.py`).

The embedding translates the three core pieces of the script:

* `should_be_forced` — the forced-track classifier (source lines 40–63);
* `parse_mkvinfo_output` — the reconciler that parses the `mkvinfo` dump
  into a reader-index → editor-index mapping (source lines 93–128);
* `set_forced_flag` and the apply loop of `analyze_and_fix_mkv_files`
  (source lines 130–146 and 227–245).

Python strings are modelled by Lean `String`; the Python string
operations used by the script (`split`, `strip`, `lower`, the `in`
containment test, and `int()` conversion) are re-implemented below by
structural recursion over the character list so that every definition is
executable and kernel-reducible.  Python `dict`s keyed by strings are
modelled as association lists with Python's insert-or-overwrite update.
Exceptions (`KeyError`, `ValueError`, `IndexError`) are modelled by
`Option`: an operation that would raise returns `none`, and a
`try/except` block that returns a default on those exceptions becomes a
`match` on the `Option`.  Python float arithmetic is modelled by exact
rational arithmetic over `ℚ`.
-/

namespace AutoForced

/-- Whitespace characters removed by Python's `str.strip()` (ASCII range). -/
def pyIsSpace (c : Char) : Bool :=
  c == ' ' || c == '\t' || c == '\n' || c == '\r' || c == Char.ofNat 11 || c == Char.ofNat 12

/-- Python `str.strip()`: drop leading and trailing whitespace. -/
def pyStrip (s : String) : String :=
  ⟨((s.data.dropWhile pyIsSpace).reverse.dropWhile pyIsSpace).reverse⟩

/-- Python `str.lower()` (ASCII letters, which is all the script compares). -/
def pyLower (s : String) : String :=
  ⟨s.data.map Char.toLower⟩

/-- Substring search on character lists: does `pat` occur inside `l`? -/
def containsChars (pat : List Char) : List Char → Bool
  | [] => pat.isEmpty
  | l@(_ :: rest) => pat.isPrefixOf l || containsChars pat rest

/-- Python's `pat in s` substring containment test. -/
def pyIn (pat s : String) : Bool :=
  containsChars pat.data s.data

/-- Splitting helper: split `l` at every occurrence of the non-empty
separator `sep`, accumulating the current field in `acc` (reversed).
`fuel` bounds the recursion; `l.length + 1` is always sufficient. -/
def splitChars (sep : List Char) : Nat → List Char → List Char → List (List Char)
  | 0, l, acc => [acc.reverse ++ l]
  | _ + 1, [], acc => [acc.reverse]
  | fuel + 1, l@(c :: rest), acc =>
    if sep.isPrefixOf l then
      acc.reverse :: splitChars sep fuel (l.drop sep.length) []
    else
      splitChars sep fuel rest (c :: acc)

/-- Python `s.split(sep)` with an explicit non-empty separator. -/
def pySplit (s sep : String) : List String :=
  if sep.data.isEmpty then [s]
  else (splitChars sep.data (s.data.length + 1) s.data []).map fun l => ⟨l⟩

/-- Decimal digit-string evaluation: `none` unless every character is a
digit. The empty list evaluates to the accumulator. -/
def digitsValAux : List Char → Nat → Option Nat
  | [], acc => some acc
  | c :: rest, acc =>
    if c.isDigit then digitsValAux rest (acc * 10 + (c.toNat - 48)) else none

/-- Python `int(s)`: strip whitespace, allow one optional sign, then a
non-empty run of decimal digits; anything else raises `ValueError`,
modelled as `none`.  (Python's underscore digit separators are not
modelled; they never occur in the tool output the script consumes.) -/
def parsePyInt (s : String) : Option Int :=
  let t := ((s.data.dropWhile pyIsSpace).reverse.dropWhile pyIsSpace).reverse
  match t with
  | [] => none
  | '+' :: ds =>
    match ds with
    | [] => none
    | _ => (digitsValAux ds 0).map Int.ofNat
  | '-' :: ds =>
    match ds with
    | [] => none
    | _ => (digitsValAux ds 0).map fun n => -(n : Int)
  | ds => (digitsValAux ds 0).map Int.ofNat

/-- One subtitle track record as built by `analyze_subtitle_tracks`
(source lines 71–85): a Python dict.  Only the fields that the verified
functions consult are modelled.  `language` and `id` are always present
in records built by the pipeline (they default to `'unknown'`), so they
are plain strings; `element_count` is kept optional so that a missing
dict key (a `KeyError` in `should_be_forced`) is representable.
`percentage` models the `'percentage'` key, absent until
`should_be_forced` stores it; `modified` models the `'modified'` key,
absent until the apply loop stores an outcome (the spec's tri-state
`modification_outcome`, with `none` = unattempted). -/
structure Track where
  id : String := ""
  language : String := ""
  element_count : Option String := none
  percentage : Option ℚ := none
  modified : Option Bool := none
deriving Repr, DecidableEq

/-- The percentage computed on source line 55:
`(element_count / max_elements) * 100 if max_elements > 0 else 100`,
with Python float division modelled exactly over `ℚ`. -/
def pct_of (element_count max_elements : Int) : ℚ :=
  if max_elements > 0 then ((element_count : ℚ) / (max_elements : ℚ)) * 100 else 100

/-- Modelled from the spec (§4.1 step 2): `percentage = 100.0` if
`max_elements == 0`, else `(track.element_count / max_elements) * 100`.
This is the spec's formula, stated for comparison with the code's
`pct_of`; the two differ in which branch a negative maximum takes. -/
def spec_percentage (element_count max_elements : Int) : ℚ :=
  if max_elements = 0 then 100 else ((element_count : ℚ) / (max_elements : ℚ)) * 100

/-- The evaluation of `int(t['element_count'])` for every track of a
list, in order, as performed by the `max(...)` generator on source
line 52: `none` as soon as one track is missing the key (`KeyError`) or
has a non-numeric value (`ValueError`). -/
def collectCounts : List Track → Option (List Int)
  | [] => some []
  | t :: ts =>
    match t.element_count.bind parsePyInt, collectCounts ts with
    | some n, some ns => some (n :: ns)
    | _, _ => none

/-- `max(int(t['element_count']) for t in ts)` from source line 52:
`none` when a count is missing or non-numeric, or when `ts` is empty
(Python's `max` raises `ValueError` on an empty sequence). -/
def maxCounts (ts : List Track) : Option Int :=
  match collectCounts ts with
  | some (x :: xs) => some (xs.foldl max x)
  | _ => none

/-- `should_be_forced(track, all_tracks)` (source lines 40–63).  The
Python function mutates `track` (it stores `track['percentage']`) and
returns a bool; the embedding returns the pair (result, updated track).
Every `except (ValueError, KeyError): return False` path returns
`(false, track)` with the record untouched. -/
def should_be_forced (track : Track) (all_tracks : List Track) : Bool × Track :=
  match track.element_count with
  | none => (false, track)
  | some ec_str =>
    match parsePyInt ec_str with
    | none => (false, track)
    | some element_count =>
      let language := track.language
      let same_language_tracks := all_tracks.filter fun t => t.language == language
      match maxCounts same_language_tracks with
      | none => (false, track)
      | some max_elements =>
        let percentage := pct_of element_count max_elements
        (decide (element_count < 400) || decide (percentage < 20),
         { track with percentage := some percentage })

/-- In-progress record of `parse_mkvinfo_output`: `none` when
`current_track is None`, `some none` when `current_track` is the empty
dict `{}`, and `some (some (number, mkvmerge_id))` once both keys have
been stored (the two keys are only ever assigned together, source
lines 113–114). -/
abbrev CurrentTrack := Option (Option (String × String))

/-- Parser state of `parse_mkvinfo_output`: the accumulated
`track_mapping` dict (as an association list in insertion order) and the
in-progress `current_track`. -/
structure ParseState where
  mapping : List (String × String)
  current : CurrentTrack
deriving Repr, DecidableEq

/-- Python dict assignment `m[k] = v`: overwrite the value at an
existing key in place, else append the new pair. -/
def dictInsert (m : List (String × String)) (k v : String) : List (String × String) :=
  match m with
  | [] => [(k, v)]
  | (k', v') :: rest => if k' == k then (k', v) :: rest else (k', v') :: dictInsert rest k v

/-- Python `m.get(k)`: the value at the first (hence only) occurrence of
the key, or `None`. -/
def dictGet (m : List (String × String)) (k : String) : Option String :=
  match m with
  | [] => none
  | (k', v') :: rest => if k' == k then some v' else dictGet rest k

/-- The `try` body of source lines 110–114: split the line on `'('`,
take `parts[0].split(':')[1].strip()` as the track number and
`parts[1].split(':')[1].split(')')[0].strip()` as the mkvmerge ID.  Any
`IndexError` along the way is modelled as `none` (the script catches it
and leaves `current_track` untouched). -/
def parseTrackNumberLine (line : String) : Option (String × String) := do
  let parts := pySplit line "("
  let p0 ← parts.get? 0
  let tn ← (pySplit p0 ":").get? 1
  let p1 ← parts.get? 1
  let m1 ← (pySplit p1 ":").get? 1
  let mid ← (pySplit m1 ")").get? 0
  pure (pyStrip tn, pyStrip mid)

/-- The body of the per-line loop of `parse_mkvinfo_output` (source
lines 98–125), acting on one raw line. -/
def processLine (st : ParseState) (raw : String) : ParseState :=
  let line := pyStrip raw
  if pyIn "| + Track" line then
    { st with current := some none }
  else
    match st.current with
    | none => st
    | some cur =>
      if pyIn "Track number:" line then
        match parseTrackNumberLine line with
        | some numIds => { st with current := some (some numIds) }
        | none => st
      else if pyIn "Track type:" line && pyIn "subtitles" (pyLower line) then
        match cur with
        | some (num, mid) => { mapping := dictInsert st.mapping num mid, current := none }
        | none => { st with current := none }
      else if pyIn "Track type:" line then
        { st with current := none }
      else st

/-- `parse_mkvinfo_output(mkvinfo_output)` (source lines 93–128):
fold the per-line step over `mkvinfo_output.split('\n')` starting from
an empty mapping and `current_track = None`, and return the mapping. -/
def parse_mkvinfo_output (mkvinfo_output : String) : List (String × String) :=
  ((pySplit mkvinfo_output "\n").foldl processLine ⟨[], none⟩).mapping

/-- `set_forced_flag(file_path, track_id, forced)` (source lines
130–146).  `runner` models `subprocess.run` by the exit status it
returns for a given command.  The function returns Python's boolean
result paired with the command that was executed, `none` when the
editor was never invoked (`int(track_id)` raised and the `except`
returned `False`). -/
def set_forced_flag (runner : List String → Int) (file_path track_id : String)
    (forced : Bool) : Bool × Option (List String) :=
  match parsePyInt track_id with
  | none => (false, none)
  | some tid =>
    let corrected_track_id := tid + 1
    let cmd := ["mkvpropedit", file_path, "--edit", "track:" ++ toString corrected_track_id,
                "--set", "flag-forced=" ++ (if forced then "1" else "0")]
    (runner cmd == 0, some cmd)

/-- The per-track body of the apply loop of `analyze_and_fix_mkv_files`
(source lines 228–245): look the track's id up in the mapping; when the
result is `None` or falsy (the empty string), record
`track['modified'] = False` without invoking the editor; otherwise call
`set_forced_flag` and record its result.  Returns the updated record and
the editor command that was run, if any. -/
def applyTrack (runner : List String → Int) (file_path : String)
    (mapping : List (String × String)) (track : Track) : Track × Option (List String) :=
  match dictGet mapping track.id with
  | some mkvmerge_id =>
    if mkvmerge_id == "" then
      ({ track with modified := some false }, none)
    else
      let r := set_forced_flag runner file_path mkvmerge_id true
      ({ track with modified := some r.1 }, r.2)
  | none => ({ track with modified := some false }, none)

/-- The whole apply loop (`for track in tracks_to_force:`, source
line 228): each selected track is processed independently, in order. -/
def applyAll (runner : List String → Int) (file_path : String)
    (mapping : List (String × String)) (tracks : List Track) :
    List (Track × Option (List String)) :=
  tracks.map (applyTrack runner file_path mapping)

/-- The apply phase of one file of the batch: parse that file's
`mkvinfo` dump and run the apply loop on its selected tracks.  The input
triple is (file path, tracks_to_force, mkvinfo dump). -/
def processFileApply (runner : List String → Int)
    (input : String × List Track × String) : List (Track × Option (List String)) :=
  applyAll runner input.1 (parse_mkvinfo_output input.2.2) input.2.1

/-- The batch loop of `analyze_and_fix_mkv_files` (source line 163)
restricted to the apply phase: files are processed sequentially and
independently (each iteration's body is wrapped in its own
`try/except`). -/
def processBatch (runner : List String → Int)
    (inputs : List (String × List Track × String)) :
    List (List (Track × Option (List String))) :=
  inputs.map (processFileApply runner)

example : pySplit "Track number: 45 (track ID for mkvmerge & mkvextract: 33)" "(" =
    ["Track number: 45 ", "track ID for mkvmerge & mkvextract: 33)"] := by decide

example : pyStrip "  45 " = "45" := by decide

example : pyIn "| + Track" "|  + Track number: 45" = false := by decide

example : pyIn "Track number:" "| + Track number: 45" = true := by decide

example : pyLower "Track TYPE: Subtitles" = "track type: subtitles" := by decide

example : parsePyInt " 45 " = some 45 := by decide

example : parsePyInt "-7" = some (-7) := by decide

example : parsePyInt "4a" = none := by decide

example : parsePyInt "" = none := by decide

example : parseTrackNumberLine "Track number: 45 (track ID for mkvmerge & mkvextract: 33)" =
    some ("45", "33") := by decide

example : parseTrackNumberLine "Track number: 45 track ID for mkvmerge 33" = none := by decide

example :
    parse_mkvinfo_output
      ("| + Track\n|  + Track number: 3 (track ID for mkvmerge & mkvextract: 2)\n" ++
       "|  + Track type: subtitles") = [("3", "2")] := by decide

example :
    parse_mkvinfo_output
      ("| + Track\n|  + Track number: 3 (track ID for mkvmerge & mkvextract: 2)\n" ++
       "|  + Track type: video") = [] := by decide

example :
    (should_be_forced { language := "en", element_count := some "50" }
      [{ language := "en", element_count := some "50" },
       { language := "en", element_count := some "1000" }]).1 = true := by decide

example :
    (should_be_forced { language := "en", element_count := some "500" } []).1 = false := by decide

/-- A track record that, when consulted by the classifier, would raise:
its element count is missing or non-numeric. -/
def badCount (t : Track) : Bool :=
  (t.element_count.bind parsePyInt).isNone

/-- Some value consulted by `should_be_forced(track, all_tracks)` is
missing or non-numeric: either the track's own element count, or the
element count of a same-language sibling (those are exactly the values
the `try` block converts with `int`). -/
def consultedFailure (track : Track) (all_tracks : List Track) : Bool :=
  badCount track ||
    (all_tracks.filter fun t => t.language == track.language).any badCount

/-- A track whose element count parses as a non-negative integer. -/
def nonnegCount (t : Track) : Bool :=
  match t.element_count.bind parsePyInt with
  | some m => decide (0 ≤ m)
  | none => false

section ClassifierLemmas

lemma collectCounts_of_all_some {ts : List Track}
    (h : ∀ t ∈ ts, (t.element_count.bind parsePyInt).isSome = true) :
    ∃ ns, collectCounts ts = some ns := by
  induction ts with
  | nil => exact ⟨[], rfl⟩
  | cons t ts ih =>
    obtain ⟨n, hn⟩ := Option.isSome_iff_exists.mp (h t (List.mem_cons_self t ts))
    obtain ⟨ns, hns⟩ := ih fun u hu => h u (List.mem_cons_of_mem t hu)
    exact ⟨n :: ns, by simp [collectCounts, hn, hns]⟩

lemma collectCounts_none_of_mem {ts : List Track} {t : Track}
    (hmem : t ∈ ts) (hbad : t.element_count.bind parsePyInt = none) :
    collectCounts ts = none := by
  induction ts with
  | nil => cases hmem
  | cons u ts ih =>
    rcases List.mem_cons.mp hmem with rfl | hmem'
    · simp [collectCounts, hbad]
    · unfold collectCounts
      rw [ih hmem']
      cases u.element_count.bind parsePyInt <;> rfl

lemma collectCounts_mem :
    ∀ {ts : List Track} {ns : List Int} {t : Track},
      collectCounts ts = some ns → t ∈ ts →
      ∃ n, t.element_count.bind parsePyInt = some n ∧ n ∈ ns := by
  intro ts
  induction ts with
  | nil => intro ns t _ hmem; cases hmem
  | cons u ts ih =>
    intro ns t h hmem
    unfold collectCounts at h
    rcases hu : u.element_count.bind parsePyInt with _ | n <;> rw [hu] at h
    · exact absurd h (by simp)
    rcases hts : collectCounts ts with _ | ms <;> rw [hts] at h
    · exact absurd h (by simp)
    obtain rfl : n :: ms = ns := by simpa using h
    rcases List.mem_cons.mp hmem with rfl | hmem'
    · exact ⟨n, hu, List.mem_cons_self _ _⟩
    · obtain ⟨m, hm, hmem''⟩ := ih hts hmem'
      exact ⟨m, hm, List.mem_cons_of_mem _ hmem''⟩

lemma collectCounts_mem_rev :
    ∀ {ts : List Track} {ns : List Int} {n : Int},
      collectCounts ts = some ns → n ∈ ns →
      ∃ t ∈ ts, t.element_count.bind parsePyInt = some n := by
  intro ts
  induction ts with
  | nil =>
    intro ns n h hmem
    obtain rfl : ([] : List Int) = ns := by simpa [collectCounts] using h
    cases hmem
  | cons u ts ih =>
    intro ns n h hmem
    unfold collectCounts at h
    rcases hu : u.element_count.bind parsePyInt with _ | m <;> rw [hu] at h
    · exact absurd h (by simp)
    rcases hts : collectCounts ts with _ | ms <;> rw [hts] at h
    · exact absurd h (by simp)
    obtain rfl : m :: ms = ns := by simpa using h
    rcases List.mem_cons.mp hmem with rfl | hmem'
    · exact ⟨u, List.mem_cons_self _ _, hu⟩
    · obtain ⟨t, ht, htn⟩ := ih hts hmem'
      exact ⟨t, List.mem_cons_of_mem _ ht, htn⟩

lemma le_foldl_max_init (ns : List Int) : ∀ a : Int, a ≤ ns.foldl max a := by
  induction ns with
  | nil => intro a; exact le_refl a
  | cons b ns ih =>
    intro a
    exact le_trans (le_max_left a b) (ih (max a b))

lemma le_foldl_max_mem {ns : List Int} {x : Int} (hmem : x ∈ ns) :
    ∀ a : Int, x ≤ ns.foldl max a := by
  induction ns with
  | nil => cases hmem
  | cons b ns ih =>
    intro a
    rcases List.mem_cons.mp hmem with rfl | hmem'
    · exact le_trans (le_max_right a x) (le_foldl_max_init ns (max a x))
    · exact ih hmem' (max a b)

lemma foldl_max_mem (ns : List Int) : ∀ a : Int, ns.foldl max a = a ∨ ns.foldl max a ∈ ns := by
  induction ns with
  | nil => intro a; exact Or.inl rfl
  | cons b ns ih =>
    intro a
    rcases ih (max a b) with h | h
    · rcases max_choice a b with hm | hm
      · exact Or.inl (by rw [List.foldl_cons, h, hm])
      · exact Or.inr (by rw [List.foldl_cons, h, hm]; exact List.mem_cons_self _ _)
    · exact Or.inr (List.mem_cons_of_mem _ h)

lemma maxCounts_of_all_some {ts : List Track}
    (hne : ts ≠ [])
    (h : ∀ t ∈ ts, (t.element_count.bind parsePyInt).isSome = true) :
    ∃ m, maxCounts ts = some m := by
  obtain ⟨ns, hns⟩ := collectCounts_of_all_some h
  unfold maxCounts
  rw [hns]
  cases ns with
  | nil =>
    cases ts with
    | nil => exact absurd rfl hne
    | cons u ts =>
      obtain ⟨n, _, hmem⟩ := collectCounts_mem hns (List.mem_cons_self u ts)
      cases hmem
  | cons x xs => exact ⟨xs.foldl max x, rfl⟩

lemma maxCounts_is_ub {ts : List Track} {m : Int} {t : Track} {n : Int}
    (h : maxCounts ts = some m) (hmem : t ∈ ts)
    (hn : t.element_count.bind parsePyInt = some n) : n ≤ m := by
  unfold maxCounts at h
  rcases hts : collectCounts ts with _ | ns <;> rw [hts] at h
  · exact absurd h (by simp)
  cases ns with
  | nil => exact absurd h (by simp)
  | cons x xs =>
    obtain rfl : xs.foldl max x = m := by simpa using h
    obtain ⟨n', hn', hmem'⟩ := collectCounts_mem hts hmem
    rw [hn] at hn'
    obtain rfl := Option.some.inj hn'
    rcases List.mem_cons.mp hmem' with rfl | hmem''
    · exact le_foldl_max_init xs n
    · exact le_foldl_max_mem hmem'' x

lemma maxCounts_attained {ts : List Track} {m : Int}
    (h : maxCounts ts = some m) :
    ∃ t ∈ ts, t.element_count.bind parsePyInt = some m := by
  unfold maxCounts at h
  rcases hts : collectCounts ts with _ | ns <;> rw [hts] at h
  · exact absurd h (by simp)
  cases ns with
  | nil => exact absurd h (by simp)
  | cons x xs =>
    obtain rfl : xs.foldl max x = m := by simpa using h
    rcases foldl_max_mem xs x with hx | hx
    · exact collectCounts_mem_rev hts (by rw [hx]; exact List.mem_cons_self x xs)
    · exact collectCounts_mem_rev hts (List.mem_cons_of_mem x hx)

/-- Evaluation of `should_be_forced` on the success path: both element
count conversions succeed and the same-language maximum exists. -/
lemma should_be_forced_eval {track : Track} {l : List Track} {s : String} {n m : Int}
    (hec : track.element_count = some s) (hn : parsePyInt s = some n)
    (hmax : maxCounts (l.filter fun t => t.language == track.language) = some m) :
    should_be_forced track l =
      (decide (n < 400) || decide (pct_of n m < 20),
       { track with percentage := some (pct_of n m) }) := by
  simp only [should_be_forced, hec, hn, hmax]

/-- Evaluation of `should_be_forced` on the exception path: some
consulted element count is missing or non-numeric, so the `except`
clause returns `False` with the record untouched. -/
lemma should_be_forced_fail {track : Track} {l : List Track}
    (h : consultedFailure track l = true) :
    should_be_forced track l = (false, track) := by
  unfold consultedFailure at h
  rcases Bool.or_eq_true_iff.mp h with hbad | hany
  · unfold badCount at hbad
    rcases hec : track.element_count with _ | s
    · simp only [should_be_forced, hec]
    · rw [hec] at hbad
      have hps : parsePyInt s = none := by
        have h' := Option.isNone_iff_eq_none.mp hbad
        simpa using h'
      simp only [should_be_forced, hec, hps]
  · obtain ⟨t, hmem, hbad⟩ := List.any_eq_true.mp hany
    have hcc : collectCounts (l.filter fun t => t.language == track.language) = none :=
      collectCounts_none_of_mem hmem (by unfold badCount at hbad; exact Option.isNone_iff_eq_none.mp hbad)
    have hmx : maxCounts (l.filter fun t => t.language == track.language) = none := by
      unfold maxCounts; rw [hcc]
    rcases hec : track.element_count with _ | s
    · simp only [should_be_forced, hec]
    rcases hps : parsePyInt s with _ | n
    · simp only [should_be_forced, hec, hps]
    simp only [should_be_forced, hec, hps, hmx]

lemma mem_filter_self {track : Track} {l : List Track} (hmem : track ∈ l) :
    track ∈ l.filter fun t => t.language == track.language :=
  List.mem_filter.mpr ⟨hmem, by simp⟩

lemma filter_count_some {track : Track} {l : List Track}
    (hsib : ∀ t ∈ l, t.language = track.language →
      (t.element_count.bind parsePyInt).isSome = true) :
    ∀ t ∈ l.filter fun t => t.language == track.language,
      (t.element_count.bind parsePyInt).isSome = true := by
  intro t ht
  obtain ⟨hmem, heq⟩ := List.mem_filter.mp ht
  exact hsib t hmem (by simpa using heq)

/-- The code's percentage and the spec's percentage agree on the
classification outcome whenever the track's count is bounded by the
group maximum (they can only differ when the maximum is negative, and
then the count itself is negative, so the absolute-count branch fires
on both sides). -/
lemma pct_of_iff_spec {n m : Int} (hle : n ≤ m) :
    (n < 400 ∨ pct_of n m < 20) ↔ (n < 400 ∨ spec_percentage n m < 20) := by
  rcases lt_trichotomy 0 m with hpos | hzero | hneg
  · have : pct_of n m = spec_percentage n m := by
      unfold pct_of spec_percentage
      rw [if_pos hpos, if_neg (by omega)]
    rw [this]
  · have h1 : pct_of n m = 100 := by unfold pct_of; rw [if_neg (by omega)]
    have h2 : spec_percentage n m = 100 := by unfold spec_percentage; rw [if_pos hzero.symm]
    rw [h1, h2]
  · constructor
    · intro _; exact Or.inl (by omega)
    · intro _; exact Or.inl (by omega)

end ClassifierLemmas

/-- C1: For every track record and sibling list such that the track is
an element of the sibling list and the `element_count` of the track and
of every same-language sibling parses as an integer,
`should_be_forced(track, siblings)` returns true if and only if the
track's element count is less than 400 or its percentage of the
same-language maximum is less than 20, where the percentage is 100.0
when that maximum is 0 and `(element_count / max_elements) * 100`
otherwise (the spec's formula `spec_percentage`). -/
theorem C1_classifier_matches_spec (track : Track) (l : List Track) (s : String) (n : Int)
    (hmem : track ∈ l)
    (hec : track.element_count = some s) (hn : parsePyInt s = some n)
    (hsib : ∀ t ∈ l, t.language = track.language →
      (t.element_count.bind parsePyInt).isSome = true) :
    ∃ maxE, maxCounts (l.filter fun t => t.language == track.language) = some maxE ∧
      ((should_be_forced track l).1 = true ↔ (n < 400 ∨ spec_percentage n maxE < 20)) := by
  have hfm := mem_filter_self hmem
  have hne : (l.filter fun t => t.language == track.language) ≠ [] := by
    intro h0; rw [h0] at hfm; cases hfm
  obtain ⟨m, hm⟩ := maxCounts_of_all_some hne (filter_count_some hsib)
  have hbind : track.element_count.bind parsePyInt = some n := by rw [hec]; exact hn
  have hle : n ≤ m := maxCounts_is_ub hm hfm hbind
  refine ⟨m, hm, ?_⟩
  rw [should_be_forced_eval hec hn hm]
  simp only [Bool.or_eq_true, decide_eq_true_eq]
  exact pct_of_iff_spec hle

def trEn50 : Track := { language := "en", element_count := some "50" }

def trEn1000 : Track := { language := "en", element_count := some "1000" }

/-- Witness for C1 at a concrete input: the 50-element English track of
the spec's first end-to-end scenario. -/
theorem C1_classifier_matches_spec_witness :
    trEn50 ∈ [trEn50, trEn1000] ∧
    ∃ maxE, maxCounts ([trEn50, trEn1000].filter fun t => t.language == trEn50.language) =
        some maxE ∧
      ((should_be_forced trEn50 [trEn50, trEn1000]).1 = true ↔
        ((50 : Int) < 400 ∨ spec_percentage 50 maxE < 20)) :=
  ⟨by decide,
   C1_classifier_matches_spec trEn50 [trEn50, trEn1000] "50" 50 (by decide) rfl (by decide)
     (by decide)⟩

def trEn10 : Track := { language := "en", element_count := some "10" }

def trEnBad : Track := { language := "en", element_count := some "abc" }

/-- C4 counterexample: the claim quantifies over **every** track and
sibling list in which the track's element count is below 400, but the
code returns false when a same-language sibling's element count does not
parse (`max(int(t['element_count']) ...)` raises `ValueError`, caught on
source line 62).  Here the track has 10 elements (10 < 400), yet
`should_be_forced` returns false because the sibling's count is
`"abc"`. -/
theorem C4_counterexample :
    parsePyInt "10" = some 10 ∧ ((10 : Int) < 400) ∧
    (should_be_forced trEn10 [trEn10, trEnBad]).1 = false := by decide

/-- C4 (amended): for every track contained in its sibling list whose
element count parses as an integer below 400, **and all of whose
same-language siblings' element counts parse as integers**,
`should_be_forced` returns true regardless of the computed
percentage. -/
theorem C4_amended_small_count_forced (track : Track) (l : List Track) (s : String) (n : Int)
    (hmem : track ∈ l)
    (hec : track.element_count = some s) (hn : parsePyInt s = some n) (hlt : n < 400)
    (hsib : ∀ t ∈ l, t.language = track.language →
      (t.element_count.bind parsePyInt).isSome = true) :
    (should_be_forced track l).1 = true := by
  have hfm := mem_filter_self hmem
  have hne : (l.filter fun t => t.language == track.language) ≠ [] := by
    intro h0; rw [h0] at hfm; cases hfm
  obtain ⟨m, hm⟩ := maxCounts_of_all_some hne (filter_count_some hsib)
  rw [should_be_forced_eval hec hn hm]
  have hd : decide (n < 400) = true := decide_eq_true hlt
  simp [hd]

def trDe300 : Track := { language := "de", element_count := some "300" }

/-- Witness for the amended C4 at a concrete input. -/
theorem C4_amended_witness : (should_be_forced trDe300 [trDe300]).1 = true :=
  C4_amended_small_count_forced trDe300 [trDe300] "300" 300 (by decide) rfl (by decide)
    (by decide) (by decide)

/-- C5: for every track record and sibling list, if the track's element
count (or any value consulted during classification) is non-numeric or
the required field is absent, `should_be_forced` returns false.  It does
not raise: the embedded function is total, every exception of the Python
`try` block being modelled as an `Option` failure that the `except`
clause maps to `False`. -/
theorem C5_ambiguous_data_returns_false (track : Track) (l : List Track)
    (h : consultedFailure track l = true) :
    (should_be_forced track l).1 = false := by
  rw [should_be_forced_fail h]

def trNoCount : Track := { language := "en" }

/-- Witness for C5 at a concrete input: a record with no
`element_count` field at all. -/
theorem C5_ambiguous_data_returns_false_witness :
    consultedFailure trNoCount [] = true ∧ (should_be_forced trNoCount []).1 = false :=
  ⟨by decide, C5_ambiguous_data_returns_false trNoCount [] (by decide)⟩

/-- C8: for every track record contained in the sibling list whose
same-language group's element counts all parse as non-negative integers,
the percentage stored by classification lies in [0, 100] when the
same-language maximum is positive and equals 100 when the maximum is 0;
in particular a language group of exactly one track with a positive
element count yields percentage 100. -/
theorem C8_percentage_invariant (track : Track) (l : List Track) (s : String) (n maxE : Int)
    (hmem : track ∈ l)
    (hec : track.element_count = some s) (hn : parsePyInt s = some n)
    (hnonneg : ∀ t ∈ l, t.language = track.language → nonnegCount t = true)
    (hmax : maxCounts (l.filter fun t => t.language == track.language) = some maxE) :
    ∃ p : ℚ, (should_be_forced track l).2.percentage = some p ∧
      (0 < maxE → 0 ≤ p ∧ p ≤ 100) ∧
      (maxE = 0 → p = 100) ∧
      ((l.filter fun t => t.language == track.language) = [track] → 0 < n → p = 100) := by
  have hbind : track.element_count.bind parsePyInt = some n := by rw [hec]; exact hn
  have hfm := mem_filter_self hmem
  have hle : n ≤ maxE := maxCounts_is_ub hmax hfm hbind
  have h0n : 0 ≤ n := by
    have h' := hnonneg track hmem rfl
    unfold nonnegCount at h'
    rw [hbind] at h'
    simpa using h'
  refine ⟨pct_of n maxE, ?_, ?_, ?_, ?_⟩
  · rw [should_be_forced_eval hec hn hmax]
  · intro hpos
    have hpm : pct_of n maxE = ((n : ℚ) / (maxE : ℚ)) * 100 := by
      unfold pct_of; rw [if_pos hpos]
    have h2 : (0 : ℚ) < (maxE : ℚ) := by exact_mod_cast hpos
    constructor
    · rw [hpm]
      have h1 : (0 : ℚ) ≤ (n : ℚ) := by exact_mod_cast h0n
      exact mul_nonneg (div_nonneg h1 h2.le) (by norm_num)
    · rw [hpm]
      have h3 : (n : ℚ) ≤ (maxE : ℚ) := by exact_mod_cast hle
      have h4 : (n : ℚ) / (maxE : ℚ) ≤ 1 := (div_le_one h2).mpr h3
      calc ((n : ℚ) / (maxE : ℚ)) * 100 ≤ 1 * 100 :=
            mul_le_mul_of_nonneg_right h4 (by norm_num)
        _ = 100 := one_mul 100
  · intro h0
    unfold pct_of
    rw [if_neg (by omega)]
  · intro hsingle hnpos
    have hc : collectCounts [track] = some [n] := by simp [collectCounts, hbind]
    have hone : maxCounts [track] = some n := by simp [maxCounts, hc]
    rw [hsingle, hone] at hmax
    obtain rfl := Option.some.inj hmax
    unfold pct_of
    rw [if_pos (by omega)]
    have hnz : (n : ℚ) ≠ 0 := by exact_mod_cast hnpos.ne'
    rw [div_self hnz, one_mul]

def trSolo : Track := { language := "en", element_count := some "50" }

/-- Witness for C8 at a concrete input: a singleton language group with
a positive element count. -/
theorem C8_percentage_invariant_witness :
    maxCounts ([trSolo].filter fun t => t.language == trSolo.language) = some 50 ∧
    ∃ p : ℚ, (should_be_forced trSolo [trSolo]).2.percentage = some p ∧
      (0 < (50 : Int) → 0 ≤ p ∧ p ≤ 100) ∧
      ((50 : Int) = 0 → p = 100) ∧
      (([trSolo].filter fun t => t.language == trSolo.language) = [trSolo] →
        0 < (50 : Int) → p = 100) :=
  ⟨by decide,
   C8_percentage_invariant trSolo [trSolo] "50" 50 50 (by decide) rfl (by decide) (by decide)
     (by decide)⟩

/-- C10: for every track record and sibling list, whenever
`should_be_forced` takes its exception path because a consulted element
count is missing or non-numeric (in the track or a same-language
sibling), it returns false and the track record passed in is left
completely unchanged — in particular no `percentage` field is added,
because the only mutation (source line 58) occurs after every fallible
step has succeeded. -/
theorem C10_exception_path_leaves_track_unchanged (track : Track) (l : List Track)
    (h : consultedFailure track l = true) :
    should_be_forced track l = (false, track) :=
  should_be_forced_fail h

def trTypo : Track := { language := "fr", element_count := some "12x" }

/-- Witness for C10 at a concrete input: a non-numeric element count. -/
theorem C10_exception_path_witness :
    consultedFailure trTypo [trTypo] = true ∧
    should_be_forced trTypo [trTypo] = (false, trTypo) :=
  ⟨by decide, C10_exception_path_leaves_track_unchanged trTypo [trTypo] (by decide)⟩

/-- C2: the transition behaviour of the reconciler's per-line step, as
the claim describes it.  In order: (1) a line containing the
new-track-entry marker discards any in-progress record, opens a fresh
one and commits nothing; (2) a successfully parsed track-number line
stores both indices in the open record, committing nothing; (3) a
track-type line containing "subtitles" (case-insensitively) commits
`reader_index -> editor_index` when both indices are present and closes
the record; (4) the same line with an index-less record commits nothing
and closes the record; (5) a track-type line declaring any other type
discards the in-progress record without committing; (6) the mapping
changes **only** through case (3), so entries are committed exactly for
track entries whose number line parsed and whose subsequent type line
declares subtitles. -/
theorem C2_reconciler_transitions (st : ParseState) (line : String) :
    (pyIn "| + Track" (pyStrip line) = true →
      processLine st line = ⟨st.mapping, some none⟩) ∧
    (∀ cur r e, pyIn "| + Track" (pyStrip line) = false → st.current = some cur →
      pyIn "Track number:" (pyStrip line) = true →
      parseTrackNumberLine (pyStrip line) = some (r, e) →
      processLine st line = ⟨st.mapping, some (some (r, e))⟩) ∧
    (∀ r e, pyIn "| + Track" (pyStrip line) = false →
      st.current = some (some (r, e)) →
      pyIn "Track number:" (pyStrip line) = false →
      pyIn "Track type:" (pyStrip line) = true →
      pyIn "subtitles" (pyLower (pyStrip line)) = true →
      processLine st line = ⟨dictInsert st.mapping r e, none⟩) ∧
    (pyIn "| + Track" (pyStrip line) = false →
      st.current = some none →
      pyIn "Track number:" (pyStrip line) = false →
      pyIn "Track type:" (pyStrip line) = true →
      pyIn "subtitles" (pyLower (pyStrip line)) = true →
      processLine st line = ⟨st.mapping, none⟩) ∧
    (∀ cur, pyIn "| + Track" (pyStrip line) = false → st.current = some cur →
      pyIn "Track number:" (pyStrip line) = false →
      pyIn "Track type:" (pyStrip line) = true →
      pyIn "subtitles" (pyLower (pyStrip line)) = false →
      processLine st line = ⟨st.mapping, none⟩) ∧
    ((processLine st line).mapping ≠ st.mapping →
      ∃ r e, st.current = some (some (r, e)) ∧
        pyIn "| + Track" (pyStrip line) = false ∧
        pyIn "Track number:" (pyStrip line) = false ∧
        pyIn "Track type:" (pyStrip line) = true ∧
        pyIn "subtitles" (pyLower (pyStrip line)) = true ∧
        (processLine st line).mapping = dictInsert st.mapping r e) := by
  refine ⟨?_, ?_, ?_, ?_, ?_, ?_⟩
  · intro hop
    simp [processLine, hop]
  · intro cur r e hop hcur hnum hparse
    simp [processLine, hop, hcur, hnum, hparse]
  · intro r e hop hcur hnum htyp hsub
    simp [processLine, hop, hcur, hnum, htyp, hsub]
  · intro hop hcur hnum htyp hsub
    simp [processLine, hop, hcur, hnum, htyp, hsub]
  · intro cur hop hcur hnum htyp hsub
    rcases cur with _ | pr
    · simp [processLine, hop, hcur, hnum, htyp, hsub]
    · obtain ⟨r, e⟩ := pr
      simp [processLine, hop, hcur, hnum, htyp, hsub]
  · intro hne
    by_cases hop : pyIn "| + Track" (pyStrip line) = true
    · exact absurd (by simp [processLine, hop]) hne
    rw [Bool.not_eq_true] at hop
    rcases hcur : st.current with _ | cur
    · exact absurd (by simp [processLine, hop, hcur]) hne
    by_cases hnum : pyIn "Track number:" (pyStrip line) = true
    · rcases hp : parseTrackNumberLine (pyStrip line) with _ | pr
      · exact absurd (by simp [processLine, hop, hcur, hnum, hp]) hne
      · exact absurd (by simp [processLine, hop, hcur, hnum, hp]) hne
    rw [Bool.not_eq_true] at hnum
    by_cases htyp : pyIn "Track type:" (pyStrip line) = true
    · by_cases hsub : pyIn "subtitles" (pyLower (pyStrip line)) = true
      · rcases cur with _ | pr
        · exact absurd (by simp [processLine, hop, hcur, hnum, htyp, hsub]) hne
        · obtain ⟨r, e⟩ := pr
          exact ⟨r, e, rfl, hop, hnum, htyp, hsub,
            by simp [processLine, hop, hcur, hnum, htyp, hsub]⟩
      · rw [Bool.not_eq_true] at hsub
        rcases cur with _ | pr
        · exact absurd (by simp [processLine, hop, hcur, hnum, htyp, hsub]) hne
        · obtain ⟨r, e⟩ := pr
          exact absurd (by simp [processLine, hop, hcur, hnum, htyp, hsub]) hne
    · rw [Bool.not_eq_true] at htyp
      exact absurd (by simp [processLine, hop, hcur, hnum, htyp]) hne

/-- Witness for C2 at concrete inputs: with a filled in-progress record,
a subtitles type line commits the entry and any other type line commits
nothing. -/
theorem C2_reconciler_transitions_witness :
    processLine ⟨[], some (some ("3", "2"))⟩ "Track type: subtitles" = ⟨[("3", "2")], none⟩ ∧
    processLine ⟨[], some (some ("3", "2"))⟩ "Track type: video" = ⟨[], none⟩ :=
  ⟨((C2_reconciler_transitions ⟨[], some (some ("3", "2"))⟩ "Track type: subtitles").2.2.1
      "3" "2" (by decide) rfl (by decide) (by decide) (by decide)).trans (by decide),
   (C2_reconciler_transitions ⟨[], some (some ("3", "2"))⟩ "Track type: video").2.2.2.2.1
      (some ("3", "2")) (by decide) rfl (by decide) (by decide) (by decide)⟩

/-- C6: a dump text containing a malformed track-number line — one on
which the index extraction of source lines 110–112 raises (for example
because the parenthesis is missing) — is parsed without raising, the
malformed line has no effect at all on the parser state (so no mapping
entry is committed for that track), and parsing continues with the
remaining lines: the result is the same as for the dump with that line
removed.  Such an exception is caught on source line 116 and only
logged. -/
theorem C6_malformed_number_line_skipped (s s' ℓ : String) (pre post : List String)
    (hsplit : pySplit s "\n" = pre ++ ℓ :: post)
    (hsplit' : pySplit s' "\n" = pre ++ post)
    (hnum : pyIn "Track number:" (pyStrip ℓ) = true)
    (hop : pyIn "| + Track" (pyStrip ℓ) = false)
    (hbad : parseTrackNumberLine (pyStrip ℓ) = none) :
    (∀ st, processLine st ℓ = st) ∧ parse_mkvinfo_output s = parse_mkvinfo_output s' := by
  have hid : ∀ st : ParseState, processLine st ℓ = st := by
    intro st
    rcases hcur : st.current with _ | cur
    · simp [processLine, hop, hcur]
    · simp [processLine, hop, hcur, hnum, hbad]
  refine ⟨hid, ?_⟩
  unfold parse_mkvinfo_output
  rw [hsplit, hsplit', List.foldl_append, List.foldl_append, List.foldl_cons, hid]

def D6 : String := "| + Track\n|  + Track number: 45\n|  + Track type: subtitles"

def D6' : String := "| + Track\n|  + Track type: subtitles"

/-- Witness for C6 at a concrete input: a track-number line with no
parenthesis. -/
theorem C6_malformed_number_line_witness :
    pySplit D6 "\n" = ["| + Track"] ++ "|  + Track number: 45" :: ["|  + Track type: subtitles"] ∧
    (∀ st, processLine st "|  + Track number: 45" = st) ∧
    parse_mkvinfo_output D6 = parse_mkvinfo_output D6' :=
  ⟨by decide,
   (C6_malformed_number_line_skipped D6 D6' "|  + Track number: 45" ["| + Track"]
      ["|  + Track type: subtitles"] (by decide) (by decide) (by decide) (by decide)
      (by decide)).1,
   (C6_malformed_number_line_skipped D6 D6' "|  + Track number: 45" ["| + Track"]
      ["|  + Track type: subtitles"] (by decide) (by decide) (by decide) (by decide)
      (by decide)).2⟩

/-- Parser state instrumented with the sequence of committed entries, in
commit order.  `mapping` and `current` evolve exactly as in
`processLine`; `commits` additionally records every pair committed on
source line 121. -/
structure ParseStateC where
  mapping : List (String × String)
  current : CurrentTrack
  commits : List (String × String)
deriving Repr, DecidableEq

/-- The per-line step of `parse_mkvinfo_output`, instrumented with the
commit log. -/
def processLineC (st : ParseStateC) (raw : String) : ParseStateC :=
  let line := pyStrip raw
  if pyIn "| + Track" line then
    { st with current := some none }
  else
    match st.current with
    | none => st
    | some cur =>
      if pyIn "Track number:" line then
        match parseTrackNumberLine line with
        | some numIds => { st with current := some (some numIds) }
        | none => st
      else if pyIn "Track type:" line && pyIn "subtitles" (pyLower line) then
        match cur with
        | some (num, mid) =>
          { mapping := dictInsert st.mapping num mid, current := none,
            commits := st.commits ++ [(num, mid)] }
        | none => { st with current := none }
      else if pyIn "Track type:" line then
        { st with current := none }
      else st

/-- The sequence of entries committed while parsing a dump, in commit
order (duplicates included). -/
def commitsOf (s : String) : List (String × String) :=
  ((pySplit s "\n").foldl processLineC ⟨[], none, []⟩).commits

/-- The value attached to the **last** committed entry carrying a given
key, if any. -/
def lastVal (cs : List (String × String)) (k : String) : Option String :=
  ((cs.filter fun p => p.1 == k).getLast?).map Prod.snd

section ReconcilerLemmas

lemma processLine_eq_projC (m : List (String × String)) (c : CurrentTrack)
    (cs : List (String × String)) (raw : String) :
    processLine ⟨m, c⟩ raw =
      ⟨(processLineC ⟨m, c, cs⟩ raw).mapping, (processLineC ⟨m, c, cs⟩ raw).current⟩ := by
  by_cases hop : pyIn "| + Track" (pyStrip raw) = true
  · simp [processLine, processLineC, hop]
  rw [Bool.not_eq_true] at hop
  rcases c with _ | cur
  · simp [processLine, processLineC, hop]
  by_cases hnum : pyIn "Track number:" (pyStrip raw) = true
  · rcases hp : parseTrackNumberLine (pyStrip raw) with _ | pr <;>
      simp [processLine, processLineC, hop, hnum, hp]
  rw [Bool.not_eq_true] at hnum
  by_cases htyp : pyIn "Track type:" (pyStrip raw) = true
  · by_cases hsub : pyIn "subtitles" (pyLower (pyStrip raw)) = true
    · rcases cur with _ | pr
      · simp [processLine, processLineC, hop, hnum, htyp, hsub]
      · obtain ⟨r, e⟩ := pr
        simp [processLine, processLineC, hop, hnum, htyp, hsub]
    · rw [Bool.not_eq_true] at hsub
      simp [processLine, processLineC, hop, hnum, htyp, hsub]
  · rw [Bool.not_eq_true] at htyp
    simp [processLine, processLineC, hop, hnum, htyp]

lemma foldl_proj (ls : List String) :
    ∀ (m : List (String × String)) (c : CurrentTrack) (cs : List (String × String)),
      ls.foldl processLine ⟨m, c⟩ =
        ⟨(ls.foldl processLineC ⟨m, c, cs⟩).mapping, (ls.foldl processLineC ⟨m, c, cs⟩).current⟩ := by
  induction ls with
  | nil => intro m c cs; rfl
  | cons raw ls ih =>
    intro m c cs
    rw [List.foldl_cons, List.foldl_cons, processLine_eq_projC m c cs raw]
    exact ih _ _ _

lemma dictGet_dictInsert (m : List (String × String)) (k v k' : String) :
    dictGet (dictInsert m k v) k' = if k == k' then some v else dictGet m k' := by
  induction m with
  | nil => rfl
  | cons p m ih =>
    obtain ⟨a, b⟩ := p
    by_cases hak : (a == k) = true
    · obtain rfl : a = k := by simpa using hak
      by_cases h2 : (a == k') = true <;> simp [dictInsert, dictGet, hak, h2]
    · rw [Bool.not_eq_true] at hak
      by_cases h2 : (a == k') = true
      · obtain rfl : a = k' := by simpa using h2
        have hkk : (k == a) = false := by
          apply beq_eq_false_iff_ne.mpr
          intro h0
          rw [h0] at hak
          simp at hak
        simp [dictInsert, dictGet, hak, h2, hkk]
      · simp [dictInsert, dictGet, hak, h2, ih]

lemma lastVal_append (cs : List (String × String)) (r e k : String) :
    lastVal (cs ++ [(r, e)]) k = if r == k then some e else lastVal cs k := by
  unfold lastVal
  rw [List.filter_append]
  by_cases h : (r == k) = true
  · simp only [List.filter_cons, List.filter_nil, h, if_pos]
    rw [List.getLast?_concat]
    simp [h]
  · rw [Bool.not_eq_true] at h
    simp only [List.filter_cons, List.filter_nil, h]
    simp [h]

/-- Invariant tying the mapping to the commit log: every key is bound to
the value of its last committed entry. -/
def MapInv (st : ParseStateC) : Prop :=
  ∀ k, dictGet st.mapping k = lastVal st.commits k

lemma mapInv_step {st : ParseStateC} (h : MapInv st) (raw : String) :
    MapInv (processLineC st raw) := by
  by_cases hop : pyIn "| + Track" (pyStrip raw) = true
  · intro k
    simp only [processLineC, hop, if_pos]
    exact h k
  rw [Bool.not_eq_true] at hop
  rcases hcur : st.current with _ | cur
  · intro k
    simp only [processLineC, hop, hcur]
    simpa using h k
  by_cases hnum : pyIn "Track number:" (pyStrip raw) = true
  · rcases hp : parseTrackNumberLine (pyStrip raw) with _ | pr
    · intro k
      simp only [processLineC, hop, hcur, hnum, hp]
      simpa using h k
    · intro k
      simp only [processLineC, hop, hcur, hnum, hp]
      simpa using h k
  rw [Bool.not_eq_true] at hnum
  by_cases htyp : pyIn "Track type:" (pyStrip raw) = true
  · by_cases hsub : pyIn "subtitles" (pyLower (pyStrip raw)) = true
    · rcases cur with _ | pr
      · intro k
        simp only [processLineC, hop, hcur, hnum, htyp, hsub]
        simpa using h k
      · obtain ⟨r, e⟩ := pr
        intro k
        have hred :
            processLineC st raw =
              { mapping := dictInsert st.mapping r e, current := none,
                commits := st.commits ++ [(r, e)] } := by
          simp [processLineC, hop, hcur, hnum, htyp, hsub]
        rw [hred]
        show dictGet (dictInsert st.mapping r e) k = lastVal (st.commits ++ [(r, e)]) k
        rw [dictGet_dictInsert, lastVal_append]
        by_cases hrk : (r == k) = true <;> simp [hrk, h k]
    · rw [Bool.not_eq_true] at hsub
      rcases cur with _ | pr
      · intro k
        simp only [processLineC, hop, hcur, hnum, htyp, hsub]
        simpa using h k
      · obtain ⟨r, e⟩ := pr
        intro k
        simp only [processLineC, hop, hcur, hnum, htyp, hsub]
        simpa using h k
  · rw [Bool.not_eq_true] at htyp
    intro k
    simp only [processLineC, hop, hcur, hnum, htyp]
    rcases cur with _ | pr
    · simpa using h k
    · simpa using h k

lemma mapInv_foldl (ls : List String) :
    ∀ st, MapInv st → MapInv (ls.foldl processLineC st) := by
  induction ls with
  | nil => intro st h; exact h
  | cons raw ls ih =>
    intro st h
    rw [List.foldl_cons]
    exact ih _ (mapInv_step h raw)

lemma parse_lastVal (s k : String) :
    dictGet (parse_mkvinfo_output s) k = lastVal (commitsOf s) k := by
  unfold parse_mkvinfo_output commitsOf
  rw [foldl_proj (pySplit s "\n") [] none []]
  exact mapInv_foldl (pySplit s "\n") ⟨[], none, []⟩ (fun _ => rfl) k

end ReconcilerLemmas

/-- C9: for every dump text in which two or more committed subtitle
track entries carry the same reader index, the returned mapping binds
that reader index to the editor index of the **last** such entry in the
dump: later entries silently overwrite earlier ones (Python dict
assignment on source line 121), rather than being rejected or
reported. -/
theorem C9_duplicate_reader_index_last_wins (s k : String)
    (hdup : 2 ≤ ((commitsOf s).filter fun p => p.1 == k).length) :
    ∃ last, ((commitsOf s).filter fun p => p.1 == k).getLast? = some last ∧
      dictGet (parse_mkvinfo_output s) k = some last.2 := by
  have hne : ((commitsOf s).filter fun p => p.1 == k) ≠ [] := by
    intro h0
    rw [h0] at hdup
    simp at hdup
  refine ⟨((commitsOf s).filter fun p => p.1 == k).getLast hne,
    List.getLast?_eq_getLast _ hne, ?_⟩
  rw [parse_lastVal s k]
  unfold lastVal
  rw [List.getLast?_eq_getLast _ hne]
  rfl

def D9 : String :=
  "| + Track\n|  + Track number: 3 (track ID for mkvmerge & mkvextract: 2)\n" ++
  "|  + Track type: subtitles\n| + Track\n" ++
  "|  + Track number: 3 (track ID for mkvmerge & mkvextract: 7)\n|  + Track type: subtitles"

set_option maxRecDepth 40000 in
/-- Witness for C9 at a concrete input: two committed entries with
reader index "3"; the mapping holds the later editor index "7". -/
theorem C9_duplicate_reader_index_witness :
    2 ≤ ((commitsOf D9).filter fun p => p.1 == "3").length ∧
    (∃ last, ((commitsOf D9).filter fun p => p.1 == "3").getLast? = some last ∧
      dictGet (parse_mkvinfo_output D9) "3" = some last.2) ∧
    dictGet (parse_mkvinfo_output D9) "3" = some "7" :=
  ⟨by decide, C9_duplicate_reader_index_last_wins D9 "3" (by decide), by decide⟩

/-- C3: whenever the apply loop finds a (truthy) reconciled editor index
for a selected track and that index parses as an integer `n`, the
external editor is invoked with a track address equal to `n + 1`
(`corrected_track_id = int(track_id) + 1`, source line 134): the command
is `mkvpropedit <file> --edit track:<n+1> --set flag-forced=1`. -/
theorem C3_editor_address_is_index_plus_one (runner : List String → Int)
    (file_path : String) (mapping : List (String × String)) (track : Track)
    (mid : String) (n : Int)
    (hget : dictGet mapping track.id = some mid)
    (hne : (mid == "") = false)
    (hn : parsePyInt mid = some n) :
    (applyTrack runner file_path mapping track).2 =
      some ["mkvpropedit", file_path, "--edit", "track:" ++ toString (n + 1),
            "--set", "flag-forced=1"] := by
  have hstr : ("flag-forced=" ++ if (true : Bool) then "1" else "0") = "flag-forced=1" := by
    decide
  simp [applyTrack, hget, hne, set_forced_flag, hn, hstr]

def D3 : String :=
  "| + Track\n|  + Track number: 3 (track ID for mkvmerge & mkvextract: 2)\n" ++
  "|  + Track type: subtitles"

def tr3 : Track := { id := "3", language := "en", element_count := some "50" }

/-- Witness for C3 at a concrete input, end to end through the
reconciler: the dump reports reader index "3" with editor-compatible
index "2", and the editor invocation addresses track 3. -/
theorem C3_editor_address_witness :
    dictGet (parse_mkvinfo_output D3) "3" = some "2" ∧
    (applyTrack (fun _ => 0) "movie.mkv" (parse_mkvinfo_output D3) tr3).2 =
      some ["mkvpropedit", "movie.mkv", "--edit", "track:3", "--set", "flag-forced=1"] :=
  ⟨by decide,
   (C3_editor_address_is_index_plus_one (fun _ => 0) "movie.mkv" (parse_mkvinfo_output D3)
      tr3 "2" 2 (by decide) (by decide) (by decide)).trans (by decide)⟩

/-- C7: a track selected for modification whose reader index is absent
from the identity map is recorded with outcome failed
(`track['modified'] = False`, source line 245) and the external editor
is not invoked for it; the remaining tracks of the file are processed
exactly as they would otherwise be (first conjunct), and the remaining
files of the batch are processed independently (second conjunct). -/
theorem C7_missing_mapping_outcome_failed :
    (∀ (runner : List String → Int) (file_path : String)
        (mapping : List (String × String)) (pre post : List Track) (t : Track),
      dictGet mapping t.id = none →
      applyAll runner file_path mapping (pre ++ t :: post) =
        applyAll runner file_path mapping pre ++
          ({ t with modified := some false }, (none : Option (List String))) ::
            applyAll runner file_path mapping post) ∧
    (∀ (runner : List String → Int) (ins1 ins2 : List (String × List Track × String))
        (x : String × List Track × String),
      processBatch runner (ins1 ++ x :: ins2) =
        processBatch runner ins1 ++ processFileApply runner x :: processBatch runner ins2) := by
  constructor
  · intro runner fp mapping pre post t hnone
    unfold applyAll
    rw [List.map_append, List.map_cons]
    have ht : applyTrack runner fp mapping t = ({ t with modified := some false }, none) := by
      simp [applyTrack, hnone]
    rw [ht]
  · intro runner ins1 ins2 x
    unfold processBatch
    rw [List.map_append, List.map_cons]

def tr7 : Track := { id := "9", language := "en", element_count := some "42" }

/-- Witness for C7 at a concrete input: a selected track whose id is
absent from an empty identity map. -/
theorem C7_missing_mapping_witness :
    dictGet [] tr7.id = none ∧
    applyAll (fun _ => 0) "m.mkv" [] ([] ++ tr7 :: []) =
      applyAll (fun _ => 0) "m.mkv" [] [] ++
        ({ tr7 with modified := some false }, (none : Option (List String))) ::
          applyAll (fun _ => 0) "m.mkv" [] [] :=
  ⟨rfl,
   (C7_missing_mapping_outcome_failed).1 (fun _ => 0) "m.mkv" [] [] [] tr7 rfl⟩

end AutoForced
